import Mathlib

/-!
# DevShare core: a shallow embedding with verified properties

This development embeds the core of the DevShare daemon in Lean 4 and proves
properties of it:

* the bundle codec (`FileBundler.createArchive` / `BundleExtractor.performExtraction`
  in `packages/daemon/src/services/file-bundler.ts` and `bundle-extractor.ts`),
* the crypto service (`crypto-service.ts`): the signature-envelope check and the
  software fallback sign/verify pair,
* the exclusion rules of the bundler (`FileBundler.shouldExclude`),
* the transfer service (`transfer-service.ts`): token issue and download
  handlers, the download progress loop, and `cancelTransfer`,
* the peer-discovery announcement handler (`peer-discovery.ts`).

Machine integers are modelled as `Nat` with explicit `% 256` digit arithmetic
where the code writes big-endian `u32`/`u64` fields.  Byte buffers are
`List Nat`.  The gzip wrapping of the bundle stream is treated as a transparent
transport (the codec's logical layout is what is modelled); external calls
(sha256, the native crypto addon, network and file I/O) are modelled as
explicit parameters or as the write trace the function would perform.
-/

set_option maxHeartbeats 1000000

namespace DevShare

/-! ## Byte-stream primitives

The bundle format writes big-endian `u32` and `u64` length fields
(`Buffer.writeUInt32BE` / `Buffer.writeBigUInt64BE`) and the extractor reads
them back with `readUInt32BE` / `readBigUInt64BE`. -/

/-- Big-endian 4-byte encoding of a `u32` value (`Buffer.writeUInt32BE`). -/
def u32be (n : Nat) : List Nat :=
  [n / 16777216 % 256, n / 65536 % 256, n / 256 % 256, n % 256]

/-- Big-endian 8-byte encoding of a `u64` value (`Buffer.writeBigUInt64BE`). -/
def u64be (n : Nat) : List Nat :=
  [n / 72057594037927936 % 256, n / 281474976710656 % 256,
   n / 1099511627776 % 256, n / 4294967296 % 256,
   n / 16777216 % 256, n / 65536 % 256, n / 256 % 256, n % 256]

/-- Value of a 4-byte big-endian field (`Buffer.readUInt32BE`). -/
def u32val (b : List Nat) : Nat :=
  match b with
  | [a, b1, c, d] => ((a * 256 + b1) * 256 + c) * 256 + d
  | _ => 0

/-- Value of an 8-byte big-endian field (`Buffer.readBigUInt64BE`). -/
def u64val (b : List Nat) : Nat :=
  match b with
  | [a, b1, c, d, e, f, g, h] =>
    ((((((a * 256 + b1) * 256 + c) * 256 + d) * 256 + e) * 256 + f) * 256 + g) * 256 + h
  | _ => 0

/-- `BundleExtractor.readBytes`: resolve with exactly `count` bytes of the
stream and push the remainder back, or fail (`Unexpected end of stream`) when
the stream ends first. -/
def readBytes (count : Nat) (s : List Nat) : Option (List Nat × List Nat) :=
  if count ≤ s.length then some (s.take count, s.drop count) else none

/-! ## Data model: the project manifest

`ProjectManifest` from `packages/proto/src/api.ts`.  The `language` union
`node | python | docker` and the string maps are modelled with `String`
fields and association lists. -/

/-- The optional `engines` block of a manifest. -/
structure EngineSpec where
  node : Option String
  python : Option String
  deriving DecidableEq, Repr

/-- `ProjectManifest` (packages/proto): name, version, language tag, run
command, optional engines / ports / env / secrets / dependencies. -/
structure ProjectManifest where
  name : String
  version : String
  language : String
  run : String
  engines : Option EngineSpec
  ports : Option (List Nat)
  env : Option (List String)
  secrets : Option (List String)
  dependencies : Option (List (String × String))
  deriving DecidableEq, Repr

/-- UTF-8-agnostic byte view of a string (each `Char` as its code point; all
strings appearing in the claims are ASCII, where this is exactly UTF-8). -/
def strBytes (s : String) : List Nat :=
  s.data.map Char.toNat

/-- The relative path the extractor writes the manifest rendering to. -/
def devshareYmlBytes : List Nat := strBytes "devshare.yml"

/-- `BundleExtractor.manifestToYaml`: the YAML rendering written to
`devshare.yml` after extraction.  Note the source renders `engines`, `ports`,
`env` and `secrets` only when present (and, for the lists, non-empty), and
never renders `dependencies`. -/
def manifestToYaml (m : ProjectManifest) : String :=
  let base := ["name: " ++ m.name, "version: " ++ m.version,
               "language: " ++ m.language, "run: " ++ m.run]
  let engineLines :=
    match m.engines with
    | none => []
    | some e =>
      ["engines:"]
        ++ (match e.node with
            | some v => ["  node: \"" ++ v ++ "\""]
            | none => [])
        ++ (match e.python with
            | some v => ["  python: \"" ++ v ++ "\""]
            | none => [])
  let portLines :=
    match m.ports with
    | some ps =>
      if ps.length > 0 then "ports:" :: ps.map (fun p => "  - " ++ toString p)
      else []
    | none => []
  let envLines :=
    match m.env with
    | some es =>
      if es.length > 0 then "env:" :: es.map (fun e => "  - " ++ e) else []
    | none => []
  let secretLines :=
    match m.secrets with
    | some ss =>
      if ss.length > 0 then "secrets:" :: ss.map (fun s => "  - " ++ s)
      else []
    | none => []
  String.intercalate "\n"
    (base ++ engineLines ++ portLines ++ envLines ++ secretLines) ++ "\n"

/-! ## Bundle codec

`FileBundler.createArchive` writes, through one gzip stream:
`[u32 manifestLen][manifest JSON][u32 fileCount]` then per file
`[u32 pathLen][path][u64 fileSize][content]`.
`BundleExtractor.performExtraction` reverses this, writing each file as soon
as its record is parsed and finishing with a `devshare.yml` render of the
manifest.  The gzip layer is a transparent transport here; the manifest's
JSON codec (`JSON.stringify` / `JSON.parse`) is passed in as an
encoder/decoder pair. -/

/-- One filesystem write performed by the extractor: a declared file record,
or the final `devshare.yml` manifest render (tagged so the two steps of the
source can be told apart; on disk both are plain `writeFile` calls). -/
structure FsWrite where
  path : List Nat
  content : List Nat
  isManifestRender : Bool
  deriving DecidableEq, Repr

/-- Forget the provenance tag: what lands on disk. -/
def FsWrite.untag (w : FsWrite) : List Nat × List Nat :=
  (w.path, w.content)

/-- Extraction failures: `readBytes` hitting end of stream (surfaced as a
`CorruptBundle` / `Unexpected end of stream` error), or `JSON.parse` of the
manifest failing. -/
inductive ExtractError where
  | unexpectedEnd
  | badManifest
  deriving DecidableEq, Repr

/-- `ExtractionResult` of `BundleExtractor.performExtraction`. -/
structure ExtractionResult where
  manifest : ProjectManifest
  fileCount : Nat
  totalSize : Nat
  deriving DecidableEq, Repr

instance instDecEqExcept {ε α : Type} [DecidableEq ε] [DecidableEq α] :
    DecidableEq (Except ε α)
  | .error a, .error b =>
    match decEq a b with
    | isTrue h => isTrue (h ▸ rfl)
    | isFalse h => isFalse fun hc => h (Except.error.inj hc)
  | .error _, .ok _ => isFalse fun hc => Except.noConfusion hc
  | .ok _, .error _ => isFalse fun hc => Except.noConfusion hc
  | .ok a, .ok b =>
    match decEq a b with
    | isTrue h => isTrue (h ▸ rfl)
    | isFalse h => isFalse fun hc => h (Except.ok.inj hc)

/-- The per-file loop of `performExtraction`: for each of the `n` declared
records read `[u32 pathLen][path][u64 fileSize][content]`, writing the file
immediately.  Returns the writes performed, and on success the remaining
stream plus the accumulated `totalSize`.  `none` is the
`Unexpected end of stream` failure. -/
def extractFilesLoop : Nat → List Nat → List FsWrite × Option (List Nat × Nat)
  | 0, s => ([], some (s, 0))
  | n + 1, s =>
    match readBytes 4 s with
    | none => ([], none)
    | some (plb, s1) =>
      match readBytes (u32val plb) s1 with
      | none => ([], none)
      | some (path, s2) =>
        match readBytes 8 s2 with
        | none => ([], none)
        | some (fsb, s3) =>
          let fileSize := u64val fsb
          match readBytes fileSize s3 with
          | none => ([], none)
          | some (content, s4) =>
            let r := extractFilesLoop n s4
            (⟨path, content, false⟩ :: r.1,
             r.2.map (fun p => (p.1, fileSize + p.2)))

/-- `BundleExtractor.performExtraction` on the decompressed stream: read the
manifest header, decode the manifest (`decM` stands for `JSON.parse`), read
the file count, run the per-file loop, then write `devshare.yml`.  The first
component is the ordered list of filesystem writes performed (also when the
extraction fails partway). -/
def performExtraction (decM : List Nat → Option ProjectManifest)
    (bundle : List Nat) : List FsWrite × Except ExtractError ExtractionResult :=
  match readBytes 4 bundle with
  | none => ([], .error .unexpectedEnd)
  | some (mlb, s1) =>
    match readBytes (u32val mlb) s1 with
    | none => ([], .error .unexpectedEnd)
    | some (mbytes, s2) =>
      match decM mbytes with
      | none => ([], .error .badManifest)
      | some manifest =>
        match readBytes 4 s2 with
        | none => ([], .error .unexpectedEnd)
        | some (fcb, s3) =>
          let expectedFileCount := u32val fcb
          match extractFilesLoop expectedFileCount s3 with
          | (ws, none) => (ws, .error .unexpectedEnd)
          | (ws, some (_, totalSize)) =>
            (ws ++ [⟨devshareYmlBytes, strBytes (manifestToYaml manifest), true⟩],
             .ok ⟨manifest, expectedFileCount, totalSize⟩)

/-- One file record of `FileBundler.createArchive`:
`[u32 pathLen][path][u64 fileSize][content]`. -/
def encodeFileRecord (path content : List Nat) : List Nat :=
  u32be path.length ++ path ++ u64be content.length ++ content

/-- `FileBundler.createArchive` (logical stream, before gzip): manifest
header (`encM` stands for `JSON.stringify`), file count, then the records of
the included files in order. -/
def createArchive (encM : ProjectManifest → List Nat) (manifest : ProjectManifest)
    (files : List (List Nat × List Nat)) : List Nat :=
  u32be (encM manifest).length ++ encM manifest ++ u32be files.length ++
    (files.map (fun pc => encodeFileRecord pc.1 pc.2)).flatten

/-- State of the destination directory after a list of writes: the last write
to a path wins (`writeFile` truncates). -/
def lookupTree (ws : List FsWrite) (p : List Nat) : Option (List Nat) :=
  (ws.reverse.find? (fun w => w.path == p)).map FsWrite.content

/-- A concrete valid manifest used in the concrete instances below. -/
def sampleManifest : ProjectManifest :=
  { name := "a", version := "1", language := "node", run := "npm start"
    engines := none, ports := none, env := none, secrets := none
    dependencies := none }

/-! ## Crypto service

`CryptoService` in `crypto-service.ts`.  The sha256 primitive is an ambient
parameter `sha : String → String`; its collision-freeness is the standard
`Function.Injective` idealization.  The native Rust addon (`packages/native`,
whose source is not part of the daemon sources) is modelled from the spec
below. -/

/-- `KeyPair` of the crypto service. -/
structure KeyPair where
  publicKey : String
  privateKey : String
  deriving DecidableEq, Repr

/-- `BundleSignature`: the signature envelope
`(bundleHash, signature, publicKey, timestamp, version)`. -/
structure BundleSignature where
  bundleHash : String
  signature : String
  publicKey : String
  timestamp : Int
  version : String
  deriving DecidableEq, Repr

/-- `CryptoService.generateKeyPairFallback`: a random 32-byte hex string as
the private key, its sha256 as the public key. -/
def generateKeyPairFallback (sha : String → String) (randomHex : String) :
    KeyPair :=
  { privateKey := randomHex, publicKey := sha randomHex }

/-- `CryptoService.signDataFallback`: `sha256(data + privateKey)`. -/
def signDataFallback (sha : String → String) (data privateKey : String) :
    String :=
  sha (data ++ privateKey)

/-- `CryptoService.verifySignatureFallback`: recompute
`sha256(data + publicKey)` (the source comment: "Using publicKey as proxy for
privateKey in fallback") and compare. -/
def verifySignatureFallback (sha : String → String)
    (data signature publicKey : String) : Bool :=
  signature == sha (data ++ publicKey)

/-- Modelled from the spec: the native crypto backend (`@devshare/native`,
`packages/native` in the repository but absent from the daemon sources).  Per
the spec it is a true Ed25519 signature scheme: signing with a private key
produces a signature that verification accepts under the matching public
key. -/
structure NativeSignScheme where
  sign : String → String → String
  verify : String → String → String → Bool
  pubOf : String → String
  verify_sign : ∀ d sk, verify d (sign d sk) (pubOf sk) = true

/-- A concrete instance of the modelled native scheme, used to instantiate
closed statements: signatures are `message ++ privateKey`, the public key is
the private key itself. -/
def trivialNative : NativeSignScheme where
  sign := fun d sk => d ++ sk
  verify := fun d s pk => s == d ++ pk
  pubOf := fun sk => sk
  verify_sign := by intro d sk; simp

/-- 24 hours in milliseconds: the maximum envelope age accepted by
`verifyBundleSignature`. -/
def maxSignatureAgeMs : Int := 24 * 60 * 60 * 1000

/-- `CryptoService.signBundle`: build the signature envelope over the given
bundle hash at the current time, under the active backend's `sign`. -/
def signBundle (sign : String → String → String) (kp : KeyPair)
    (bundleHash : String) (now : Int) : BundleSignature :=
  { bundleHash := bundleHash
    signature := sign bundleHash kp.privateKey
    publicKey := kp.publicKey
    timestamp := now
    version := "1.0.0" }

/-- `CryptoService.verifyBundleSignature`: fail-closed envelope check.  The
source returns `false` (never throws) when the envelope is older than 24
hours, when the presented hash differs from `envelope.bundleHash`, or when
the backend check fails (a thrown error is caught and also yields `false`;
here the backend is the total function `verify`). -/
def verifyBundleSignature (verify : String → String → String → Bool)
    (now : Int) (bundleHash : String) (s : BundleSignature) : Bool :=
  if now - s.timestamp > maxSignatureAgeMs then false
  else if bundleHash != s.bundleHash then false
  else verify s.bundleHash s.signature s.publicKey

/-! ## Exclusion rules of the bundler

`FileBundler.shouldExclude`: a pattern containing `*` is turned into a
JavaScript regex by `pattern.replace(/\*/g, '.*')` and used via
`regex.test(filePath)` — an unanchored search.  Note the translation does
not escape `.` (which the regex engine reads as any-character) and does not
anchor the expression.  The regex fragment reached by such patterns is
literals, `.`, and `x*`; it is modelled below with standard nondeterministic
semantics (equivalent to the engine's backtracking on this fragment).
A pattern without `*` is an exact match or a directory-prefix match
(`filePath === pattern || filePath.startsWith(pattern + '/')`). -/

/-- One parsed regex atom: a single character constraint, or its Kleene
star.  The character `.` matches any input character. -/
inductive RAtom where
  | one (c : Char)
  | star (c : Char)
  deriving DecidableEq, Repr

/-- Parse a regex string of the reached fragment: a character followed by
`*` is starred, otherwise it stands alone. -/
def parseRegex : List Char → List RAtom
  | [] => []
  | c :: d :: rest => if d = '*' then .star c :: parseRegex rest
                      else .one c :: parseRegex (d :: rest)
  | [c] => [.one c]

/-- Does the regex character `rc` admit input character `x`
(`.` is the any-character wildcard)? -/
def charAdmits (rc x : Char) : Bool :=
  rc = '.' || rc = x

/-- Match a regex against the empty input: only stars may remain. -/
def matchNil : List RAtom → Bool
  | [] => true
  | .one _ :: _ => false
  | .star _ :: rs => matchNil rs

/-- One input character `x` against the atom list, `next` continuing the
match on the remaining input. -/
def matchCons (next : List RAtom → Bool) (x : Char) : List RAtom → Bool
  | [] => true
  | .one c :: rs => charAdmits c x && next rs
  | .star c :: rs =>
    matchCons next x rs || (charAdmits c x && next (.star c :: rs))

/-- Match a regex against a prefix of the input (the rest may be anything:
`RegExp.test` has no end anchor here).  A starred atom either yields to the
rest of the regex or consumes one admitted character and stays. -/
def matchChars : List Char → List RAtom → Bool
  | [], rs => matchNil rs
  | x :: xs, rs => matchCons (fun rs2 => matchChars xs rs2) x rs

/-- Entry point in regex-first argument order. -/
def matchHere (rs : List RAtom) (cs : List Char) : Bool :=
  matchChars cs rs

/-- Unanchored search (`RegExp.prototype.test`): try every start
position. -/
def regexSearch (rs : List RAtom) : List Char → Bool
  | [] => matchHere rs []
  | x :: xs => matchHere rs (x :: xs) || regexSearch rs xs

/-- `pattern.replace(/\*/g, '.*')`: each `*` becomes the two characters
`.` `*`. -/
def globToRegexChars (pattern : List Char) : List Char :=
  pattern.flatMap (fun c => if c = '*' then ['.', '*'] else [c])

/-- `FileBundler.shouldExclude`: any pattern fires; `*`-patterns go through
the regex translation and unanchored search, the rest by exact or
directory-prefix match. -/
def shouldExclude (filePath : String) (excludePatterns : List String) : Bool :=
  excludePatterns.any fun pattern =>
    if pattern.data.contains '*' then
      regexSearch (parseRegex (globToRegexChars pattern.data)) filePath.data
    else
      filePath == pattern || (pattern.data ++ ['/']).isPrefixOf filePath.data

/-! ## Transfer service

`TransferService` in `transfer-service.ts`: the transfer-token and download
HTTP handlers over the service's mutable maps, the client download loop of
`downloadBundle` (rendered as the sequence of transfer states it produces),
and `cancelTransfer`.  Maps are association lists where `lookup` finds the
most recent insertion, matching JavaScript `Map` observably for the
operations used. -/

/-- Transfer status (`TransferState.status`). -/
inductive TStatus where
  | pending
  | transferring
  | completed
  | failed
  | cancelled
  deriving DecidableEq, Repr

/-- The fields of `TransferState` the progress/status claims are about. -/
structure TransferStateM where
  status : TStatus
  totalBytes : Nat
  transferredBytes : Nat
  deriving DecidableEq, Repr

/-- The forward order of the transfer state machine: `pending` before
`transferring` before the terminal statuses. -/
def statusRank : TStatus → Nat
  | .pending => 0
  | .transferring => 1
  | .completed => 2
  | .failed => 2
  | .cancelled => 2

/-- The transfer state `requestBundle` opens: `status: 'pending'`,
`totalBytes: tokenResponse.size`, `transferredBytes: 0`. -/
def initTransferState (tokenSize : Nat) : TransferStateM :=
  { status := .pending, totalBytes := tokenSize, transferredBytes := 0 }

/-- Successive states of the `downloadBundle` read loop: each received chunk
adds its length to `transferredBytes`. -/
def cumStates (t : TransferStateM) : List Nat → List TransferStateM
  | [] => []
  | c :: cs =>
    let t2 := { t with transferredBytes := t.transferredBytes + c }
    t2 :: cumStates t2 cs

/-- State after the read loop: the last loop state, or the pre-loop state
when no chunk arrived. -/
def lastState (t : TransferStateM) (states : List TransferStateM) :
    TransferStateM :=
  states.getLast?.getD t

/-- The sequence of transfer states a successful `downloadBundle` run
produces: the `pending` state opened by `requestBundle`, `status :=
'transferring'`, `totalBytes := parseInt(content-length || '0')`, one state
per received chunk, then `status := 'completed'`.  `contentLength` is the
`content-length` header value and `chunks` the byte counts handed over by
the response reader. -/
def downloadTrace (tokenSize contentLength : Nat) (chunks : List Nat) :
    List TransferStateM :=
  let t0 := initTransferState tokenSize
  let t1 := { t0 with status := .transferring }
  let t2 := { t1 with totalBytes := contentLength }
  let loopStates := cumStates t2 chunks
  t0 :: t1 :: t2 :: loopStates
    ++ [{ lastState t2 loopStates with status := .completed }]

/-- The state sequence when the read loop fails after `chunks` were already
received: the `catch` of `downloadBundle` sets `status := 'failed'`. -/
def downloadFailTrace (tokenSize contentLength : Nat) (chunks : List Nat) :
    List TransferStateM :=
  let t0 := initTransferState tokenSize
  let t1 := { t0 with status := .transferring }
  let t2 := { t1 with totalBytes := contentLength }
  let loopStates := cumStates t2 chunks
  t0 :: t1 :: t2 :: loopStates
    ++ [{ lastState t2 loopStates with status := .failed }]

/-- Association-list lookup (`Map.get`). -/
def alistLookup {α : Type} (l : List (String × α)) (k : String) : Option α :=
  (l.find? (fun e => e.1 == k)).map Prod.snd

/-- Association-list removal (`Map.delete`). -/
def alistErase {α : Type} (l : List (String × α)) (k : String) :
    List (String × α) :=
  l.filter (fun e => !(e.1 == k))

/-- `TransferService.cancelTransfer`: look the transfer up (a missing id is
a no-op), set its status to `cancelled` — whatever it was before — delete
the temp file, remove the record, and notify with the cancelled state.
Returns the new transfer table and the state passed to
`notifyTransferProgress`. -/
def cancelTransfer (transfers : List (String × TransferStateM))
    (transferId : String) :
    List (String × TransferStateM) × Option TransferStateM :=
  match alistLookup transfers transferId with
  | none => (transfers, none)
  | some t => (alistErase transfers transferId,
               some { t with status := .cancelled })

/-- An entry of `availableBundles` (the fields the token/download endpoints
serve). -/
structure BundleEntry where
  size : Nat
  chunks : Nat
  deriving DecidableEq, Repr

/-- A `transferTokens` entry: `{bundleId, peerId, expiresAt}`. -/
structure TokenInfo where
  bundleId : String
  peerId : String
  expiresAt : Int
  deriving DecidableEq, Repr

/-- The server-side state the token and download endpoints touch. -/
structure ServerState where
  availableBundles : List (String × BundleEntry)
  transferTokens : List (String × TokenInfo)
  deriving DecidableEq, Repr

/-- Response of the download endpoint. -/
inductive DownloadResponse where
  | unauthorized
  | notFound
  | served (size : Nat)
  deriving DecidableEq, Repr

/-- Response of the token endpoint. -/
inductive TokenResponse where
  | notFound
  | issued (token : String) (size chunks : Nat) (expiresAt : Int)
  deriving DecidableEq, Repr

/-- `TransferService.handleTransferTokenRequest`: 404 for an unknown bundle;
otherwise record a fresh token (`token` stands for the sha256-of-randomness
value the source generates) expiring `transferTimeout` seconds from now, and
return it with the bundle's size/chunk metadata. -/
def handleTransferTokenRequest (st : ServerState) (bundleId peerId : String)
    (token : String) (now transferTimeoutMs : Int) :
    ServerState × TokenResponse :=
  match alistLookup st.availableBundles bundleId with
  | none => (st, .notFound)
  | some b =>
    let expiresAt := now + transferTimeoutMs
    ({ st with transferTokens :=
        (token, ⟨bundleId, peerId, expiresAt⟩) :: st.transferTokens },
     .issued token b.size b.chunks expiresAt)

/-- `TransferService.handleBundleDownloadRequest` (whole-bundle form): 401
when the token is unknown or past its expiry, 404 when the bundle is gone,
otherwise stream the bundle.  No branch modifies the server state: in
particular the token entry survives a successful download. -/
def handleBundleDownloadRequest (st : ServerState) (token : String)
    (now : Int) : ServerState × DownloadResponse :=
  match alistLookup st.transferTokens token with
  | none => (st, .unauthorized)
  | some ti =>
    if ti.expiresAt < now then (st, .unauthorized)
    else
      match alistLookup st.availableBundles ti.bundleId with
      | none => (st, .notFound)
      | some b => (st, .served b.size)

/-! ## Peer discovery

`PeerDiscoveryService.handlePeerAnnouncement`: verify the signature over the
canonical field subset with the embedded public key, drop announcements older
than 5 minutes, then insert or refresh the registry entry; the
peer-discovered notification fires only for a previously unknown id.  The
signature verification call (`cryptoService.verifySignature` over the
canonical JSON of the announcement) is the parameter `verifySig`. -/

/-- A `PeerAnnouncement` discovery message. -/
structure PeerAnnouncementM where
  id : String
  name : String
  port : Nat
  publicKey : String
  timestamp : Int
  signature : String
  deriving DecidableEq, Repr

/-- A registry entry (`DiscoveredPeer`). -/
structure DiscoveredPeerM where
  id : String
  name : String
  address : String
  port : Nat
  publicKey : String
  lastSeen : Int
  deriving DecidableEq, Repr

/-- Staleness bound: 5 minutes in milliseconds. -/
def maxAnnouncementAgeMs : Int := 5 * 60 * 1000

/-- `PeerDiscoveryService.handlePeerAnnouncement`.  Returns the updated
registry and the peer handed to the peer-discovered callback, when it
fires. -/
def handlePeerAnnouncement (verifySig : PeerAnnouncementM → Bool)
    (peers : List (String × DiscoveredPeerM)) (a : PeerAnnouncementM)
    (sourceAddress : String) (now : Int) :
    List (String × DiscoveredPeerM) × Option DiscoveredPeerM :=
  if !verifySig a then (peers, none)
  else if now - a.timestamp > maxAnnouncementAgeMs then (peers, none)
  else
    let existing := alistLookup peers a.id
    let peer : DiscoveredPeerM :=
      { id := a.id, name := a.name, address := sourceAddress, port := a.port
        publicKey := a.publicKey, lastSeen := now }
    ((a.id, peer) :: alistErase peers a.id,
     if existing.isNone then some peer else none)

/-! ## Helper lemmas -/

theorem u32val_u32be (n : Nat) (h : n < 4294967296) : u32val (u32be n) = n := by
  simp only [u32be, u32val]
  omega

theorem u64val_u64be (n : Nat) (h : n < 18446744073709551616) :
    u64val (u64be n) = n := by
  simp only [u64be, u64val]
  omega

theorem u32be_length (n : Nat) : (u32be n).length = 4 := rfl

theorem u64be_length (n : Nat) : (u64be n).length = 8 := rfl

theorem readBytes_append (xs ys : List Nat) (n : Nat) (h : xs.length = n) :
    readBytes n (xs ++ ys) = some (xs, ys) := by
  subst h
  simp [readBytes, List.take_left, List.drop_left]

theorem readBytes_short (n : Nat) (s : List Nat) (h : s.length < n) :
    readBytes n s = none := by
  simp [readBytes]
  omega

theorem readBytes_exact (xs ys : List Nat) :
    readBytes xs.length (xs ++ ys) = some (xs, ys) :=
  readBytes_append xs ys _ rfl

theorem extractFilesLoop_encode (files : List (List Nat × List Nat))
    (tail : List Nat)
    (hrec : ∀ pc ∈ files, pc.1.length < 4294967296 ∧ pc.2.length < 18446744073709551616) :
    extractFilesLoop files.length
        ((files.map (fun pc => encodeFileRecord pc.1 pc.2)).flatten ++ tail) =
      (files.map (fun pc => ⟨pc.1, pc.2, false⟩),
       some (tail, (files.map (fun pc => pc.2.length)).sum)) := by
  induction files generalizing tail with
  | nil => simp [extractFilesLoop]
  | cons pc rest ih =>
    obtain ⟨p, c⟩ := pc
    obtain ⟨hp, hc⟩ := hrec (p, c) (by simp)
    have ihr := ih tail (fun q hq => hrec q (List.mem_cons_of_mem _ hq))
    simp only [encodeFileRecord, List.append_assoc] at ihr
    simp only [List.map_cons, List.flatten_cons, List.length_cons,
      encodeFileRecord, List.append_assoc]
    rw [extractFilesLoop]
    rw [readBytes_append _ _ 4 (u32be_length _)]
    simp only [u32val_u32be _ hp, readBytes_exact]
    rw [readBytes_append _ _ 8 (u64be_length _)]
    simp only [u64val_u64be _ hc, readBytes_exact]
    rw [ihr]
    simp

theorem performExtraction_createArchive
    (encM : ProjectManifest → List Nat) (decM : List Nat → Option ProjectManifest)
    (m : ProjectManifest) (files : List (List Nat × List Nat))
    (hdec : decM (encM m) = some m)
    (hml : (encM m).length < 4294967296)
    (hfc : files.length < 4294967296)
    (hrec : ∀ pc ∈ files, pc.1.length < 4294967296 ∧ pc.2.length < 18446744073709551616) :
    performExtraction decM (createArchive encM m files) =
      (files.map (fun pc => ⟨pc.1, pc.2, false⟩)
         ++ [⟨devshareYmlBytes, strBytes (manifestToYaml m), true⟩],
       .ok ⟨m, files.length, (files.map (fun pc => pc.2.length)).sum⟩) := by
  have hloop := extractFilesLoop_encode files [] hrec
  rw [List.append_nil] at hloop
  unfold performExtraction createArchive
  rw [List.append_assoc, List.append_assoc]
  rw [readBytes_append _ _ 4 (u32be_length _)]
  simp only [u32val_u32be _ hml, readBytes_exact, hdec]
  rw [readBytes_append _ _ 4 (u32be_length _)]
  simp only [u32val_u32be _ hfc, hloop]

/-- Every write the per-file loop performs is a declared-file write, never
the manifest render. -/
theorem extractFilesLoop_writes_file (n : Nat) (s : List Nat) :
    ∀ w ∈ (extractFilesLoop n s).1, w.isManifestRender = false := by
  induction n generalizing s with
  | zero => simp [extractFilesLoop]
  | succ n ih =>
    intro w hw
    rw [extractFilesLoop] at hw
    rcases h4 : readBytes 4 s with _ | ⟨plb, s1⟩ <;> simp only [h4] at hw
    · simp at hw
    rcases hpath : readBytes (u32val plb) s1 with _ | ⟨path, s2⟩ <;>
      simp only [hpath] at hw
    · simp at hw
    rcases h8 : readBytes 8 s2 with _ | ⟨fsb, s3⟩ <;> simp only [h8] at hw
    · simp at hw
    rcases hcont : readBytes (u64val fsb) s3 with _ | ⟨content, s4⟩ <;>
      simp only [hcont] at hw
    · simp at hw
    simp only [List.mem_cons] at hw
    rcases hw with rfl | hw
    · rfl
    · exact ih s4 w hw

/-- When the per-file loop succeeds it performs exactly `n` writes. -/
theorem extractFilesLoop_ok_length (n : Nat) (s : List Nat) (rest : List Nat)
    (tot : Nat) (h : (extractFilesLoop n s).2 = some (rest, tot)) :
    (extractFilesLoop n s).1.length = n := by
  induction n generalizing s rest tot with
  | zero => simp [extractFilesLoop]
  | succ n ih =>
    rw [extractFilesLoop] at h ⊢
    rcases h4 : readBytes 4 s with _ | ⟨plb, s1⟩ <;> simp only [h4] at h ⊢
    · simp at h
    rcases hpath : readBytes (u32val plb) s1 with _ | ⟨path, s2⟩ <;>
      simp only [hpath] at h ⊢
    · simp at h
    rcases h8 : readBytes 8 s2 with _ | ⟨fsb, s3⟩ <;> simp only [h8] at h ⊢
    · simp at h
    rcases hcont : readBytes (u64val fsb) s3 with _ | ⟨content, s4⟩ <;>
      simp only [hcont] at h ⊢
    · simp at h
    simp only [List.length_cons]
    rcases hr : (extractFilesLoop n s4).2 with _ | ⟨r, t⟩ <;>
      simp only [hr, Option.map_none, Option.map_some] at h
    · simp at h
    · exact congrArg Nat.succ (ih s4 r t hr)

/-- On any failing extraction, the manifest render of `devshare.yml` was
never performed: every write left behind is a declared-file write. -/
theorem performExtraction_error_writes
    (decM : List Nat → Option ProjectManifest) (bundle : List Nat)
    (e : ExtractError) (herr : (performExtraction decM bundle).2 = .error e) :
    ∀ w ∈ (performExtraction decM bundle).1, w.isManifestRender = false := by
  unfold performExtraction at herr ⊢
  rcases h4 : readBytes 4 bundle with _ | ⟨mlb, s1⟩ <;> simp only [h4] at herr ⊢
  · simp
  rcases hm : readBytes (u32val mlb) s1 with _ | ⟨mbytes, s2⟩ <;>
    simp only [hm] at herr ⊢
  · simp
  rcases hdec : decM mbytes with _ | m <;> simp only [hdec] at herr ⊢
  · simp
  rcases hc : readBytes 4 s2 with _ | ⟨fcb, s3⟩ <;> simp only [hc] at herr ⊢
  · simp
  rcases hloop : extractFilesLoop (u32val fcb) s3 with ⟨ws, r⟩
  rcases r with _ | ⟨rest0, tot0⟩ <;> simp only [hloop] at herr ⊢
  · intro w hw
    have := extractFilesLoop_writes_file (u32val fcb) s3
    rw [hloop] at this
    exact this w hw
  · simp at herr

/-- Every successful extraction performs the declared-file writes (as many as
the reported `fileCount`) followed by exactly one final `devshare.yml`
manifest render. -/
theorem performExtraction_ok_writes
    (decM : List Nat → Option ProjectManifest) (bundle : List Nat)
    (r : ExtractionResult) (hok : (performExtraction decM bundle).2 = .ok r) :
    ∃ fws, (performExtraction decM bundle).1 =
        fws ++ [⟨devshareYmlBytes, strBytes (manifestToYaml r.manifest), true⟩]
      ∧ fws.length = r.fileCount
      ∧ ∀ w ∈ fws, w.isManifestRender = false := by
  unfold performExtraction at hok ⊢
  rcases h4 : readBytes 4 bundle with _ | ⟨mlb, s1⟩ <;> simp only [h4] at hok ⊢
  · simp at hok
  rcases hm : readBytes (u32val mlb) s1 with _ | ⟨mbytes, s2⟩ <;>
    simp only [hm] at hok ⊢
  · simp at hok
  rcases hdec : decM mbytes with _ | m <;> simp only [hdec] at hok ⊢
  · simp at hok
  rcases hc : readBytes 4 s2 with _ | ⟨fcb, s3⟩ <;> simp only [hc] at hok ⊢
  · simp at hok
  rcases hloop : extractFilesLoop (u32val fcb) s3 with ⟨ws, rr⟩
  rcases rr with _ | ⟨rest0, tot0⟩ <;> simp only [hloop] at hok ⊢
  · simp at hok
  · simp only [Except.ok.injEq] at hok
    subst hok
    refine ⟨ws, rfl, ?_, ?_⟩
    · have := extractFilesLoop_ok_length (u32val fcb) s3 rest0 tot0
      rw [hloop] at this
      exact this rfl
    · have := extractFilesLoop_writes_file (u32val fcb) s3
      rw [hloop] at this
      exact this

theorem find_reverse_map (files : List (List Nat × List Nat))
    (hnd : (files.map Prod.fst).Nodup) (p c : List Nat) (hmem : (p, c) ∈ files) :
    ((files.map (fun pc => (⟨pc.1, pc.2, false⟩ : FsWrite))).reverse.find?
        (fun w => w.path == p)) = some ⟨p, c, false⟩ := by
  induction files with
  | nil => simp at hmem
  | cons q rest ih =>
    simp only [List.map_cons, List.nodup_cons, List.mem_map] at hnd
    obtain ⟨hq, hnd2⟩ := hnd
    simp only [List.map_cons, List.reverse_cons, List.find?_append]
    rcases List.mem_cons.mp hmem with heq | hmem2
    · have hq1 : q.1 = p := by rw [← heq]
      have hnone : ((rest.map (fun pc => (⟨pc.1, pc.2, false⟩ : FsWrite))).reverse.find?
          (fun w => w.path == p)) = none := by
        rw [List.find?_eq_none]
        intro w hw
        simp only [List.mem_reverse, List.mem_map] at hw
        obtain ⟨pc, hpc, rfl⟩ := hw
        simp only
        intro hbeq
        exact hq ⟨pc, hpc, by rw [eq_of_beq hbeq, hq1]⟩
      rw [hnone, ← heq]
      simp
    · rw [ih hnd2 hmem2]
      rfl

theorem isPrefixOf_append_right (l r : List Char) :
    l.isPrefixOf (l ++ r) = true := by
  induction l with
  | nil => simp [List.isPrefixOf]
  | cons x xs ih => simp [List.isPrefixOf, ih]

theorem string_append_cancel (a b c : String) (h : a ++ b = a ++ c) :
    b = c := by
  have hd := congrArg String.data h
  simp only [String.data_append] at hd
  exact String.ext (List.append_cancel_left hd)

theorem cumStates_status (t : TransferStateM) (cs : List Nat) :
    ∀ s ∈ cumStates t cs, s.status = t.status := by
  induction cs generalizing t with
  | nil => simp [cumStates]
  | cons c cs ih =>
    intro s hs
    simp only [cumStates, List.mem_cons] at hs
    rcases hs with rfl | hs
    · rfl
    · exact ih { t with transferredBytes := t.transferredBytes + c } s hs

theorem cumStates_totalBytes (t : TransferStateM) (cs : List Nat) :
    ∀ s ∈ cumStates t cs, s.totalBytes = t.totalBytes := by
  induction cs generalizing t with
  | nil => simp [cumStates]
  | cons c cs ih =>
    intro s hs
    simp only [cumStates, List.mem_cons] at hs
    rcases hs with rfl | hs
    · rfl
    · exact ih { t with transferredBytes := t.transferredBytes + c } s hs

theorem cumStates_transferred_le (t : TransferStateM) (cs : List Nat) :
    ∀ s ∈ cumStates t cs,
      s.transferredBytes ≤ t.transferredBytes + cs.sum := by
  induction cs generalizing t with
  | nil => simp [cumStates]
  | cons c cs ih =>
    intro s hs
    simp only [cumStates, List.mem_cons] at hs
    rcases hs with rfl | hs
    · simp only [List.sum_cons]
      omega
    · have := ih { t with transferredBytes := t.transferredBytes + c } s hs
      simp only [List.sum_cons]
      simp only at this
      omega

theorem lastState_shift (t t2 : TransferStateM) (l : List TransferStateM) :
    lastState t (t2 :: l) = lastState t2 l := by
  cases l with
  | nil => rfl
  | cons a l =>
    simp only [lastState, List.getLast?_cons_cons]
    rw [List.getLast?_eq_getLast (a :: l) (by simp)]
    rfl

theorem lastState_cum_transferred (t : TransferStateM) (cs : List Nat) :
    (lastState t (cumStates t cs)).transferredBytes =
      t.transferredBytes + cs.sum := by
  induction cs generalizing t with
  | nil => simp [cumStates, lastState]
  | cons c cs ih =>
    rw [cumStates, lastState_shift]
    simp only [ih, List.sum_cons]
    omega

theorem lastState_cum_status (t : TransferStateM) (cs : List Nat) :
    (lastState t (cumStates t cs)).status = t.status := by
  induction cs generalizing t with
  | nil => simp [cumStates, lastState]
  | cons c cs ih =>
    rw [cumStates, lastState_shift]
    simp [ih]

theorem lastState_cum_totalBytes (t : TransferStateM) (cs : List Nat) :
    (lastState t (cumStates t cs)).totalBytes = t.totalBytes := by
  induction cs generalizing t with
  | nil => simp [cumStates, lastState]
  | cons c cs ih =>
    rw [cumStates, lastState_shift]
    simp [ih]

theorem chain'_cum (R : TransferStateM → TransferStateM → Prop)
    (hstep : ∀ (s : TransferStateM) (c : Nat),
      R s { s with transferredBytes := s.transferredBytes + c })
    (t fin : TransferStateM) (cs : List Nat)
    (hfin : R (lastState t (cumStates t cs)) fin) :
    List.Chain' R (t :: cumStates t cs ++ [fin]) := by
  induction cs generalizing t with
  | nil =>
    simp only [cumStates, List.nil_append]
    exact List.chain'_cons.mpr ⟨by simpa [cumStates, lastState] using hfin,
      List.chain'_singleton fin⟩
  | cons c cs ih =>
    rw [cumStates, lastState_shift] at hfin
    rw [cumStates]
    simp only [List.cons_append]
    exact List.chain'_cons.mpr ⟨hstep t c, ih _ hfin⟩

theorem statusRank_le_two (s : TStatus) : statusRank s ≤ 2 := by
  cases s <;> simp [statusRank]

/-! ## Claims -/

/-- Claim C5 (amended): a path equal to a `*`-free excluded pattern or lying
under it (`pattern ++ "/"` prefix) is excluded, and pattern `*.log` excludes
`app.log` — but, contrary to the claim, it also excludes `app.logger`: the
translation leaves the dot unescaped and the search unanchored, so the
substring `p.log` of `app.logger` matches `.*.log`. -/
theorem shouldExclude_rules :
    (∀ (filePath pattern : String) (patterns : List String),
      pattern ∈ patterns → pattern.data.contains '*' = false →
      (filePath = pattern ∨ ∃ rest, filePath.data = pattern.data ++ '/' :: rest) →
      shouldExclude filePath patterns = true) ∧
    shouldExclude "app.log" ["*.log"] = true ∧
    shouldExclude "app.logger" ["*.log"] = true := by
  refine ⟨?_, by decide, by decide⟩
  intro filePath pattern patterns hmem hstar hcase
  unfold shouldExclude
  rw [List.any_eq_true]
  refine ⟨pattern, hmem, ?_⟩
  have hcond : ¬(pattern.data.contains '*' = true) := by
    rw [hstar]
    simp
  rw [if_neg hcond]
  rcases hcase with rfl | ⟨rest, hrest⟩
  · simp
  · have hpre : (pattern.data ++ ['/']).isPrefixOf filePath.data = true := by
      rw [hrest, show pattern.data ++ '/' :: rest = (pattern.data ++ ['/']) ++ rest
        by simp]
      exact isPrefixOf_append_right _ _
    simp [hpre]

/-- Claim C5, the claim as stated refuted: the code DOES exclude
`app.logger` under pattern `*.log`. -/
theorem shouldExclude_appLogger_counterexample :
    shouldExclude "app.logger" ["*.log"] = true := by decide

/-- Claim C5, witness for the directory-prefix part at a concrete input. -/
theorem shouldExclude_rules_witness :
    shouldExclude "node_modules/x.js" ["node_modules"] = true :=
  shouldExclude_rules.1 "node_modules/x.js" "node_modules" ["node_modules"]
    (by simp) (by decide) (Or.inr ⟨"x.js".data, by decide⟩)

/-- Claim C8 (confirmed): a peer announcement older than 5 minutes leaves
the registry unchanged and fires no peer-discovered notification, whatever
the signature check says. -/
theorem stale_peer_announcement_ignored (verifySig : PeerAnnouncementM → Bool)
    (peers : List (String × DiscoveredPeerM)) (a : PeerAnnouncementM)
    (sourceAddress : String) (now : Int)
    (h : now - a.timestamp > maxAnnouncementAgeMs) :
    handlePeerAnnouncement verifySig peers a sourceAddress now = (peers, none) := by
  unfold handlePeerAnnouncement
  rcases hv : verifySig a <;> simp [hv, h]

/-- Claim C8, witness: a 6-minute-old announcement at a concrete registry. -/
theorem stale_peer_announcement_ignored_witness :
    handlePeerAnnouncement (fun _ => true) []
      ⟨"peer2", "n", 7682, "pk", 0, "sig"⟩ "10.0.0.5" 360000 = ([], none) :=
  stale_peer_announcement_ignored _ _ _ _ _ (by decide)

/-- Claim C4 (code_bug): the download endpoint never mutates the server
state — in particular it never deletes the presented token — so a token that
served one download serves a second identical request, contrary to the
single-use contract (the source's own comment reads "Generate one-time
transfer token").  Expired tokens are rejected. -/
theorem transfer_token_not_consumed :
    (∀ (st : ServerState) (token : String) (now : Int),
      (handleBundleDownloadRequest st token now).1 = st) ∧
    (handleTransferTokenRequest ⟨[("b1", ⟨100, 1⟩)], []⟩ "b1" "p1" "tok" 0 300000 =
      (⟨[("b1", ⟨100, 1⟩)], [("tok", ⟨"b1", "p1", 300000⟩)]⟩,
       .issued "tok" 100 1 300000)) ∧
    ((handleBundleDownloadRequest
        ⟨[("b1", ⟨100, 1⟩)], [("tok", ⟨"b1", "p1", 300000⟩)]⟩ "tok" 1000).2 =
      .served 100) ∧
    ((handleBundleDownloadRequest
        ((handleBundleDownloadRequest
          ⟨[("b1", ⟨100, 1⟩)], [("tok", ⟨"b1", "p1", 300000⟩)]⟩ "tok" 1000).1)
        "tok" 1000).2 = .served 100) ∧
    ((handleBundleDownloadRequest
        ⟨[("b1", ⟨100, 1⟩)], [("tok", ⟨"b1", "p1", 300000⟩)]⟩ "tok" 300001).2 =
      .unauthorized) := by
  refine ⟨?_, by decide, by decide, by decide, by decide⟩
  intro st token now
  unfold handleBundleDownloadRequest
  rcases h : alistLookup st.transferTokens token with _ | ti
  · rfl
  · by_cases he : ti.expiresAt < now
    · simp [he]
    · rcases hb : alistLookup st.availableBundles ti.bundleId with _ | b <;>
        simp [he, hb]

/-- Claim C7, the claim as stated refuted: `cancelTransfer` on a transfer
whose status already reached `completed` changes that status to `cancelled`
(and emits the changed state through the progress notification). -/
theorem cancelTransfer_overwrites_completed :
    cancelTransfer [("t1", ⟨TStatus.completed, 10, 10⟩)] "t1" =
      ([], some ⟨TStatus.cancelled, 10, 10⟩) ∧
    TStatus.cancelled ≠ TStatus.completed := by decide

/-- Claim C7 (amended): along `downloadBundle` the status only moves forward
(`pending → transferring → {completed | failed}`), but `cancelTransfer` sets
the status of any present transfer — terminal or not — to `cancelled` and
removes the record. -/
theorem transfer_status_forward :
    (∀ (ts cl : Nat) (chunks : List Nat),
      List.Chain' (fun a b => statusRank a.status ≤ statusRank b.status)
        (downloadTrace ts cl chunks)) ∧
    (∀ (ts cl : Nat) (chunks : List Nat),
      List.Chain' (fun a b => statusRank a.status ≤ statusRank b.status)
        (downloadFailTrace ts cl chunks)) ∧
    (∀ (transfers : List (String × TransferStateM)) (id : String)
       (t : TransferStateM), alistLookup transfers id = some t →
      cancelTransfer transfers id =
        (alistErase transfers id, some { t with status := TStatus.cancelled })) := by
  refine ⟨?_, ?_, ?_⟩
  · intro ts cl chunks
    simp only [downloadTrace]
    refine List.chain'_cons.mpr ⟨by simp [initTransferState, statusRank], ?_⟩
    refine List.chain'_cons.mpr ⟨by simp [initTransferState, statusRank], ?_⟩
    refine chain'_cum (fun a b => statusRank a.status ≤ statusRank b.status)
      (fun s c => Nat.le_refl _) _ _ chunks ?_
    exact statusRank_le_two _
  · intro ts cl chunks
    simp only [downloadFailTrace]
    refine List.chain'_cons.mpr ⟨by simp [initTransferState, statusRank], ?_⟩
    refine List.chain'_cons.mpr ⟨by simp [initTransferState, statusRank], ?_⟩
    refine chain'_cum (fun a b => statusRank a.status ≤ statusRank b.status)
      (fun s c => Nat.le_refl _) _ _ chunks ?_
    exact statusRank_le_two _
  · intro transfers id t hl
    unfold cancelTransfer
    rw [hl]

/-- Claim C7, witness: the status chain and `cancelTransfer` at concrete
inputs. -/
theorem transfer_status_forward_witness :
    cancelTransfer [("t1", ⟨TStatus.transferring, 5, 3⟩)] "t1" =
      ([], some ⟨TStatus.cancelled, 5, 3⟩) :=
  transfer_status_forward.2.2 [("t1", ⟨TStatus.transferring, 5, 3⟩)] "t1"
    ⟨TStatus.transferring, 5, 3⟩ (by decide)

/-- Claim C2 (confirmed): `verifyBundleSignature` is a total Boolean
function (never throws) that returns `false` for an envelope older than 24
hours, for a mismatched hash, and when the backend check fails; and an
envelope produced by `signBundle` one hour ago with the correct hash under
the (spec-modelled) native backend verifies to `true`. -/
theorem verifyBundleSignature_spec (verify : String → String → String → Bool)
    (now : Int) (h : String) (env env2 env3 : BundleSignature)
    (nb : NativeSignScheme) (kp : KeyPair)
    (hkp : kp.publicKey = nb.pubOf kp.privateKey)
    (hold : now - env.timestamp > maxSignatureAgeMs)
    (hhash : h ≠ env2.bundleHash)
    (hfail : verify env3.bundleHash env3.signature env3.publicKey = false) :
    verifyBundleSignature verify now h env = false ∧
    verifyBundleSignature verify now h env2 = false ∧
    verifyBundleSignature verify now h env3 = false ∧
    verifyBundleSignature nb.verify now h
      (signBundle nb.sign kp h (now - 3600000)) = true := by
  refine ⟨?_, ?_, ?_, ?_⟩
  · simp [verifyBundleSignature, hold]
  · unfold verifyBundleSignature
    split_ifs with hA hB
    · rfl
    · rfl
    · exact absurd (by simpa using hB) hhash
  · unfold verifyBundleSignature
    split_ifs with hA hB
    · rfl
    · rfl
    · exact hfail
  · unfold verifyBundleSignature signBundle
    have hage : ¬(now - (now - 3600000) > maxSignatureAgeMs) := by
      simp only [maxSignatureAgeMs]
      omega
    rw [if_neg hage, if_neg (by simp)]
    rw [hkp]
    exact nb.verify_sign h kp.privateKey

/-- Claim C2, witness at concrete envelopes and the concrete native
instance. -/
theorem verifyBundleSignature_spec_witness :
    verifyBundleSignature (fun _ _ _ => false) 0 "h"
      ⟨"x", "sig", "pk", -90000000, "1.0.0"⟩ = false ∧
    verifyBundleSignature (fun _ _ _ => false) 0 "h"
      ⟨"x", "sig", "pk", -90000000, "1.0.0"⟩ = false ∧
    verifyBundleSignature (fun _ _ _ => false) 0 "h"
      ⟨"x", "sig", "pk", -90000000, "1.0.0"⟩ = false ∧
    verifyBundleSignature trivialNative.verify 0 "h"
      (signBundle trivialNative.sign ⟨"k", "k"⟩ "h" (0 - 3600000)) = true :=
  verifyBundleSignature_spec (fun _ _ _ => false) 0 "h"
    ⟨"x", "sig", "pk", -90000000, "1.0.0"⟩
    ⟨"x", "sig", "pk", -90000000, "1.0.0"⟩
    ⟨"x", "sig", "pk", -90000000, "1.0.0"⟩
    trivialNative ⟨"k", "k"⟩ rfl (by decide) (by decide) rfl

/-- Claim C9 (confirmed): under the software fallback, verifying the
signature `sha256(m + privateKey)` produced by `signDataFallback` against
the signer's own public key `sha256(privateKey)` recomputes
`sha256(m + publicKey)` and therefore fails whenever the public key differs
from the private key (sha256 taken collision-free). -/
theorem fallback_verify_of_sign_false (sha : String → String)
    (hinj : Function.Injective sha) (m priv : String)
    (hne : (generateKeyPairFallback sha priv).publicKey ≠ priv) :
    verifySignatureFallback sha m (signDataFallback sha m priv)
      (generateKeyPairFallback sha priv).publicKey = false := by
  simp only [generateKeyPairFallback] at hne ⊢
  simp only [verifySignatureFallback, signDataFallback]
  rw [beq_eq_false_iff_ne]
  intro heq
  have hcat := hinj heq
  have hpp : priv = sha priv := string_append_cancel m priv (sha priv) hcat
  exact hne hpp.symm

/-- Claim C9, witness with the injective hash `s ↦ "#" ++ s`. -/
theorem fallback_verify_of_sign_false_witness :
    verifySignatureFallback (fun s => "#" ++ s) "m"
      (signDataFallback (fun s => "#" ++ s) "m" "k")
      ((generateKeyPairFallback (fun s => "#" ++ s) "k").publicKey) = false :=
  fallback_verify_of_sign_false (fun s => "#" ++ s)
    (fun a b hab => string_append_cancel "#" a b hab) "m" "k" (by decide)

/-- Claim C6, the claim as stated refuted: when the response's
`content-length` header is absent the code sets `totalBytes :=
parseInt('0') = 0`, yet delivered bytes still accumulate, so a state with
`transferredBytes > totalBytes` occurs and the transfer completes with
`transferredBytes ≠ totalBytes`. -/
theorem progress_bound_counterexample :
    ((downloadTrace 100 0 [5]).any
      (fun s => Nat.blt s.totalBytes s.transferredBytes) = true) ∧
    ((downloadTrace 100 0 [5]).any
      (fun s => s.status == TStatus.completed &&
        s.transferredBytes != s.totalBytes) = true) := by
  decide

/-- Claim C6 (amended): `transferredBytes` never decreases along a
download's lifetime; and provided the response body delivers exactly the
declared `content-length` bytes, every state satisfies
`transferredBytes ≤ totalBytes` and the final `completed` state has
`transferredBytes = totalBytes`. -/
theorem progress_monotone :
    (∀ (ts cl : Nat) (chunks : List Nat),
      List.Chain' (fun a b => a.transferredBytes ≤ b.transferredBytes)
        (downloadTrace ts cl chunks)) ∧
    (∀ (ts cl : Nat) (chunks : List Nat), chunks.sum = cl →
      ∀ s ∈ downloadTrace ts cl chunks,
        s.transferredBytes ≤ s.totalBytes) ∧
    (∀ (ts cl : Nat) (chunks : List Nat), chunks.sum = cl →
      (downloadTrace ts cl chunks).getLast? =
        some ⟨TStatus.completed, cl, cl⟩) := by
  refine ⟨?_, ?_, ?_⟩
  · intro ts cl chunks
    simp only [downloadTrace]
    refine List.chain'_cons.mpr ⟨Nat.le_refl _, ?_⟩
    refine List.chain'_cons.mpr ⟨Nat.le_refl _, ?_⟩
    refine chain'_cum (fun a b => a.transferredBytes ≤ b.transferredBytes)
      (fun s c => Nat.le_add_right _ _) _ _ chunks ?_
    exact Nat.le_refl _
  · intro ts cl chunks hsum s hs
    simp only [downloadTrace, initTransferState, List.mem_cons,
      List.mem_append, List.mem_singleton, List.not_mem_nil, or_false] at hs
    rcases hs with (rfl | rfl | rfl | hs) | rfl
    · exact Nat.zero_le _
    · exact Nat.zero_le _
    · exact Nat.zero_le _
    · have h1 := cumStates_transferred_le ⟨TStatus.transferring, cl, 0⟩
        chunks s hs
      have h2 := cumStates_totalBytes ⟨TStatus.transferring, cl, 0⟩
        chunks s hs
      simp only at h1 h2
      rw [h2]
      omega
    · have h1 := lastState_cum_transferred ⟨TStatus.transferring, cl, 0⟩ chunks
      have h2 := lastState_cum_totalBytes ⟨TStatus.transferring, cl, 0⟩ chunks
      simp only at h1 h2 ⊢
      rw [h1, h2]
      omega
  · intro ts cl chunks hsum
    simp only [downloadTrace, initTransferState]
    rw [List.getLast?_concat]
    have h1 := lastState_cum_transferred ⟨TStatus.transferring, cl, 0⟩ chunks
    have h2 := lastState_cum_totalBytes ⟨TStatus.transferring, cl, 0⟩ chunks
    simp only at h1 h2
    rw [h1, h2, Nat.zero_add, hsum]

/-- Claim C6, witness: a download whose body length matches the header. -/
theorem progress_monotone_witness :
    (downloadTrace 7 9 [4, 5]).getLast? =
      some ⟨TStatus.completed, 9, 9⟩ :=
  progress_monotone.2.2 7 9 [4, 5] (by decide)

/-- Claim C1 (amended): encoding a directory tree and manifest with
`createArchive` and decoding with `performExtraction` reproduces the exact
file writes in order and returns the manifest field for field; consequently
every file whose path is not `devshare.yml` is reproduced byte for byte in
the resulting tree.  (A file named `devshare.yml` is overwritten by the
extractor's final manifest render — see the counterexample.) -/
theorem bundle_roundtrip (encM : ProjectManifest → List Nat)
    (decM : List Nat → Option ProjectManifest) (m : ProjectManifest)
    (files : List (List Nat × List Nat))
    (hdec : decM (encM m) = some m)
    (hml : (encM m).length < 4294967296)
    (hfc : files.length < 4294967296)
    (hrec : ∀ pc ∈ files,
      pc.1.length < 4294967296 ∧ pc.2.length < 18446744073709551616) :
    performExtraction decM (createArchive encM m files) =
      (files.map (fun pc => ⟨pc.1, pc.2, false⟩)
         ++ [⟨devshareYmlBytes, strBytes (manifestToYaml m), true⟩],
       .ok ⟨m, files.length, (files.map (fun pc => pc.2.length)).sum⟩) ∧
    ((files.map Prod.fst).Nodup →
      ∀ p c, (p, c) ∈ files → p ≠ devshareYmlBytes →
        lookupTree
          (performExtraction decM (createArchive encM m files)).1 p =
          some c) := by
  have hmain := performExtraction_createArchive encM decM m files hdec hml hfc hrec
  refine ⟨hmain, ?_⟩
  intro hnd p c hmem hp
  rw [hmain]
  simp only [lookupTree, List.reverse_append, List.reverse_cons,
    List.reverse_nil, List.nil_append, List.singleton_append]
  rw [List.find?_cons_of_neg]
  · rw [find_reverse_map files hnd p c hmem]
    rfl
  · simp only
    intro hbeq
    exact hp (eq_of_beq hbeq).symm

/-- Claim C1, the claim as stated refuted: a tree containing a file named
`devshare.yml` does not round-trip — the extractor's final manifest render
overwrites its bytes. -/
theorem bundle_roundtrip_counterexample :
    (performExtraction (fun _ => some sampleManifest)
        (createArchive (fun _ => []) sampleManifest
          [(devshareYmlBytes, strBytes "x")])).2 =
      .ok ⟨sampleManifest, 1, 1⟩ ∧
    lookupTree (performExtraction (fun _ => some sampleManifest)
        (createArchive (fun _ => []) sampleManifest
          [(devshareYmlBytes, strBytes "x")])).1 devshareYmlBytes ≠
      some (strBytes "x") := by
  decide

/-- Claim C1, witness: round trip at a concrete one-file tree. -/
theorem bundle_roundtrip_witness :
    performExtraction (fun _ => some sampleManifest)
        (createArchive (fun _ => []) sampleManifest [([97], [1, 2])]) =
      ([⟨[97], [1, 2], false⟩,
        ⟨devshareYmlBytes, strBytes (manifestToYaml sampleManifest), true⟩],
       .ok ⟨sampleManifest, 1, 2⟩) :=
  (bundle_roundtrip (fun _ => []) (fun _ => some sampleManifest)
    sampleManifest [([97], [1, 2])] rfl (by decide) (by decide) (by decide)).1

/-- Claim C3 (amended): a record's declared length exceeding the remaining
stream bytes makes extraction fail with the unexpected-end (`CorruptBundle`)
error; on any failing extraction the final `devshare.yml` manifest render —
the write that concludes every successful extraction — was never performed,
though the declared files parsed before the failure do remain in the
destination. -/
theorem extraction_failure_behavior :
    (∀ (decM : List Nat → Option ProjectManifest) (bundle : List Nat)
       (e : ExtractError),
      (performExtraction decM bundle).2 = .error e →
      ∀ w ∈ (performExtraction decM bundle).1, w.isManifestRender = false) ∧
    (∀ (decM : List Nat → Option ProjectManifest) (m : ProjectManifest)
       (mbytes path content : List Nat) (declaredLen : Nat),
      decM mbytes = some m → mbytes.length < 4294967296 →
      path.length < 4294967296 → content.length < declaredLen →
      declaredLen < 18446744073709551616 →
      performExtraction decM
        (u32be mbytes.length ++ mbytes ++ u32be 1 ++
         u32be path.length ++ path ++ u64be declaredLen ++ content) =
        ([], .error .unexpectedEnd)) := by
  refine ⟨performExtraction_error_writes, ?_⟩
  intro decM m mbytes path content declaredLen hdec hml hpl hcl hdl
  have hloop : extractFilesLoop 1
      (u32be path.length ++ (path ++ (u64be declaredLen ++ content))) =
      ([], none) := by
    rw [show (1 : Nat) = 0 + 1 from rfl, extractFilesLoop]
    rw [readBytes_append _ _ 4 (u32be_length _)]
    simp only [u32val_u32be _ hpl, readBytes_exact]
    rw [readBytes_append _ _ 8 (u64be_length _)]
    simp only [u64val_u64be _ hdl]
    rw [readBytes_short _ _ hcl]
  unfold performExtraction
  rw [List.append_assoc, List.append_assoc, List.append_assoc,
    List.append_assoc, List.append_assoc]
  rw [readBytes_append _ _ 4 (u32be_length _)]
  simp only [u32val_u32be _ hml, readBytes_exact, hdec]
  rw [readBytes_append _ _ 4 (u32be_length _)]
  simp only [u32val_u32be 1 (by norm_num), hloop]

/-- Claim C3, witness: a truncated record at a concrete bundle. -/
theorem extraction_failure_behavior_witness :
    performExtraction (fun _ => some sampleManifest)
        (u32be 0 ++ [] ++ u32be 1 ++ u32be 1 ++ [97] ++ u64be 5 ++ [1]) =
      ([], .error .unexpectedEnd) ∧
    (∀ w ∈ (performExtraction (fun _ => some sampleManifest)
        (u32be 0 ++ [] ++ u32be 1 ++ u32be 1 ++ [97] ++ u64be 5 ++ [1])).1,
      w.isManifestRender = false) :=
  ⟨extraction_failure_behavior.2 (fun _ => some sampleManifest) sampleManifest
      [] [97] [1] 5 rfl (by decide) (by decide) (by decide) (by decide),
   extraction_failure_behavior.1 (fun _ => some sampleManifest)
      (u32be 0 ++ [] ++ u32be 1 ++ u32be 1 ++ [97] ++ u64be 5 ++ [1])
      .unexpectedEnd (by decide)⟩

/-- Claim C3, the claim as stated refuted: a corrupt bundle that declares a
file literally named `devshare.yml` (with the manifest-render bytes) and
then a truncated record fails with `CorruptBundle`, yet leaves the
destination in exactly the on-disk state a successful extraction of a
0-file bundle with the same manifest produces — a failure state
indistinguishable from a success state. -/
theorem extraction_failure_behavior_counterexample :
    (performExtraction (fun _ => some sampleManifest)
        (u32be 0 ++ u32be 2 ++
         encodeFileRecord devshareYmlBytes
           (strBytes (manifestToYaml sampleManifest)) ++
         u32be 1 ++ [97] ++ u64be 10 ++ [1, 2])).2 =
      .error .unexpectedEnd ∧
    (performExtraction (fun _ => some sampleManifest)
        (u32be 0 ++ u32be 0)).2 = .ok ⟨sampleManifest, 0, 0⟩ ∧
    (performExtraction (fun _ => some sampleManifest)
        (u32be 0 ++ u32be 2 ++
         encodeFileRecord devshareYmlBytes
           (strBytes (manifestToYaml sampleManifest)) ++
         u32be 1 ++ [97] ++ u64be 10 ++ [1, 2])).1.map FsWrite.untag =
      (performExtraction (fun _ => some sampleManifest)
        (u32be 0 ++ u32be 0)).1.map FsWrite.untag := by
  decide

/-- Claim C10 (amended): every successful extraction performs exactly the
declared-file writes — as many as the reported `fileCount` — followed by one
final `devshare.yml` render of the decoded manifest and nothing else.  (The
resulting tree has `fileCount + 1` distinct paths only when the declared
paths are distinct and none is itself `devshare.yml`; see the
counterexample.) -/
theorem extraction_writes_devshare_yml :
    ∀ (decM : List Nat → Option ProjectManifest) (bundle : List Nat)
      (r : ExtractionResult),
      (performExtraction decM bundle).2 = .ok r →
      ∃ fws, (performExtraction decM bundle).1 =
          fws ++ [⟨devshareYmlBytes, strBytes (manifestToYaml r.manifest), true⟩]
        ∧ fws.length = r.fileCount
        ∧ ∀ w ∈ fws, w.isManifestRender = false :=
  performExtraction_ok_writes

/-- Claim C10, witness: the 0-file bundle writes only `devshare.yml`. -/
theorem extraction_writes_devshare_yml_witness :
    ∃ fws, (performExtraction (fun _ => some sampleManifest)
        (u32be 0 ++ u32be 0)).1 =
        fws ++ [⟨devshareYmlBytes, strBytes (manifestToYaml sampleManifest), true⟩]
      ∧ fws.length = 0
      ∧ ∀ w ∈ fws, w.isManifestRender = false :=
  extraction_writes_devshare_yml (fun _ => some sampleManifest)
    (u32be 0 ++ u32be 0) ⟨sampleManifest, 0, 0⟩ (by decide)

/-- Claim C10, the claim as stated refuted: a successful extraction of a
bundle declaring one file named `devshare.yml` leaves a tree with exactly
one distinct path, not the claimed `fileCount + 1 = 2`: the final manifest
render overwrites the declared file instead of adding a new one. -/
theorem extraction_writes_devshare_yml_counterexample :
    (performExtraction (fun _ => some sampleManifest)
        (u32be 0 ++ u32be 1 ++
         encodeFileRecord devshareYmlBytes (strBytes "x"))).2 =
      .ok ⟨sampleManifest, 1, 1⟩ ∧
    ((performExtraction (fun _ => some sampleManifest)
        (u32be 0 ++ u32be 1 ++
         encodeFileRecord devshareYmlBytes (strBytes "x"))).1.map
        FsWrite.path).dedup.length = 1 := by
  decide

end DevShare
